import Mathlib

/-!
Verification of the global toast/notification queue implemented in
`src/components/Message/index.tsx`.

The source is a single module:

  const Message = () => { return <div>提示组件</div>; };
  interface Item { msgContainer: HTMLDivElement; root: ReactDom.Root; }
  const queue: Item[] = [];
  window.onShow = () => {
    const msgContainer = document.createElement("div");
    msgContainer.className = "message";
    msgContainer.style.top = queue.length * 50 px;   (template string)
    document.body.appendChild(msgContainer);
    const root = ReactDom.createRoot(msgContainer);
    root.render(<Message />);
    queue.push({ msgContainer, root });
    setTimeout(() => {
      const item = queue.find((item) => item.msgContainer === msgContainer)!;
      item.root.unmount();
      document.body.removeChild(item.msgContainer);
      queue.splice(queue.indexOf(item), 1);
    }, 2000);
  };

We embed the module as a transition system over an explicit state:
the queue, the set of container nodes attached to `document.body`,
the per-node `style.top` values, the set of mounted React roots, the
pending `setTimeout` timers and the current time.  Container nodes
(and the React roots created 1:1 on them) are identified by freshly
allocated natural-number ids.  The single-threaded event loop is the
`Step` relation: time ticks, `window.onShow` runs atomically, and a
pending timer may fire — only once its deadline has passed.
-/

/-- Identity of a dynamically created DOM container node (`HTMLDivElement`). -/
abbrev ContainerId := Nat

/-- Virtual payload produced by rendering a React component. -/
inductive VNode where
  | div (text : String)
deriving DecidableEq

/-- The Toast Renderer: `const Message = () => { return <div>提示组件</div>; }`.
A zero-input, stateless component returning a fixed payload. -/
def Message : Unit → VNode := fun _ => VNode.div "提示组件"

/-- One queue entry: `interface Item { msgContainer; root }`.  The React
root is created by `createRoot(msgContainer)` and is identified here by
the id of its container. -/
structure Item where
  msgContainer : ContainerId
  root : ContainerId
deriving DecidableEq

/-- A pending one-shot `setTimeout` task.  The closure captures the
`msgContainer` local of the `onShow` call that scheduled it; `fireAt`
is the absolute time at which the 2000 ms delay elapses. -/
structure Timer where
  fireAt : Nat
  container : ContainerId
deriving DecidableEq

/-- The whole runtime state visible to the Message module:
- `now`       : current time of the event loop, in milliseconds;
- `nextId`    : fresh-id supply for `document.createElement`;
- `queue`     : the module-global `const queue: Item[]`;
- `body`      : ids of the containers currently attached to `document.body`,
                in attachment order;
- `tops`      : `style.top` (in px) of every container ever created, set once
                at creation (`queue.length * 50`) and never rewritten;
- `mounted`   : the React roots currently mounted, with the payload each one
                rendered (`root.render(<Message />)`);
- `timers`    : pending `setTimeout` tasks;
- `createdAt` : history variable (not a runtime object): the time at which
                each container id was created by its `onShow` call.  It is
                only ever appended to, and is used to state the temporal
                claims; it has no influence on any transition. -/
structure SysState where
  now : Nat
  nextId : Nat
  queue : List Item
  body : List ContainerId
  tops : List (ContainerId × Nat)
  mounted : List (ContainerId × VNode)
  timers : List Timer
  createdAt : List (ContainerId × Nat)
deriving DecidableEq

/-- The state at module load: `const queue: Item[] = []`, nothing created,
nothing attached, nothing mounted, no timer pending, time 0. -/
def init0 : SysState :=
  { now := 0, nextId := 0, queue := [], body := [], tops := [],
    mounted := [], timers := [], createdAt := [] }

/-- Model of `window.onShow`.  Mirrors the source line by line:
create a container, set its `style.top` to `queue.length * 50` px,
append it to `document.body`, create a root on it, render `<Message />`,
push the `Item`, and schedule the expiry callback 2000 ms from now. -/
def onShow (s : SysState) : SysState :=
  let msgContainer : ContainerId := s.nextId
  { now := s.now
    nextId := s.nextId + 1
    queue := s.queue ++ [{ msgContainer := msgContainer, root := msgContainer }]
    body := s.body ++ [msgContainer]
    tops := s.tops ++ [(msgContainer, s.queue.length * 50)]
    mounted := s.mounted ++ [(msgContainer, Message ())]
    timers := s.timers ++ [{ fireAt := s.now + 2000, container := msgContainer }]
    createdAt := s.createdAt ++ [(msgContainer, s.now)] }

/-- The body of the `setTimeout` closure scheduled by `onShow`, with the
captured `msgContainer` as parameter:

  const item = queue.find((item) => item.msgContainer === msgContainer)!;
  item.root.unmount();
  document.body.removeChild(item.msgContainer);
  queue.splice(queue.indexOf(item), 1);

The `none` branch is the state in which the non-null assertion `!` would
throw; the claims prove it is unreachable when a timer fires. -/
def expiryCallback (msgContainer : ContainerId) (s : SysState) : SysState :=
  match s.queue.find? (fun item => item.msgContainer == msgContainer) with
  | some item =>
      { s with
        mounted := s.mounted.filter (fun p => p.1 != item.root)
        body := s.body.erase item.msgContainer
        queue := s.queue.eraseIdx (s.queue.indexOf item) }
  | none => s

/-- The event loop fires a pending timer: the task is removed from the
pending set and its callback runs. -/
def fireTimer (tm : Timer) (s : SysState) : SysState :=
  expiryCallback tm.container { s with timers := s.timers.erase tm }

/-- Calling `window.onShow()` `n` times back to back, with no elapsed
delay between the calls. -/
def onShowIter : Nat → SysState → SysState
  | 0, s => s
  | n + 1, s => onShowIter n (onShow s)

/-- Wall-clock time passing with no intervening event. -/
def passTime (d : Nat) (s : SysState) : SysState := { s with now := s.now + d }

/-- One step of the single-threaded event loop: a millisecond elapses, or
`window.onShow()` runs to completion, or a pending timer whose deadline
has been reached fires.  A timer never fires before its deadline. -/
inductive Step : SysState → SysState → Prop where
  | tick (s : SysState) : Step s { s with now := s.now + 1 }
  | trigger (s : SysState) : Step s (onShow s)
  | fire (s : SysState) (tm : Timer) (hmem : tm ∈ s.timers)
      (hdue : tm.fireAt ≤ s.now) : Step s (fireTimer tm s)

/-- States reachable from module load by the event loop. -/
inductive Reachable : SysState → Prop where
  | init : Reachable init0
  | step {s s' : SysState} : Reachable s → Step s s' → Reachable s'

/-- The global well-formedness invariant of the module state. -/
structure WF (s : SysState) : Prop where
  queueNodup : (s.queue.map Item.msgContainer).Nodup
  queueLt : ∀ i ∈ s.queue, i.msgContainer < s.nextId
  rootEq : ∀ i ∈ s.queue, i.root = i.msgContainer
  inBody : ∀ i ∈ s.queue, i.msgContainer ∈ s.body
  inMounted : ∀ i ∈ s.queue, (i.root, Message ()) ∈ s.mounted
  bodyNodup : s.body.Nodup
  bodyLt : ∀ c ∈ s.body, c < s.nextId
  timerToQueue : ∀ tm ∈ s.timers, ∃ i ∈ s.queue, i.msgContainer = tm.container
  timersNodup : (s.timers.map Timer.container).Nodup
  timerLt : ∀ tm ∈ s.timers, tm.container < s.nextId
  timerCreated : ∀ tm ∈ s.timers, ∃ t, (tm.container, t) ∈ s.createdAt ∧ tm.fireAt = t + 2000

/-- Concrete interleaved scenario: trigger at time 0, trigger again at time
1900 ms, let the first toast expire at 2000 ms, then trigger once more at
time 2100 ms.  Used to exercise the temporal claims on explicit states. -/
def sA : SysState := onShow init0

/-- The scenario state at time 1900 ms, just before the second trigger. -/
def sB : SysState := passTime 1900 sA

/-- The scenario state right after the second trigger, at time 1900 ms. -/
def sC : SysState := onShow sB

/-- The scenario state at time 2000 ms, when the first timer is due. -/
def sD : SysState := passTime 100 sC

/-- The timer scheduled by the very first trigger: due at 2000 ms, keyed to
container 0. -/
def timer0 : Timer := { fireAt := 2000, container := 0 }

/-- The scenario state after the first toast expired. -/
def sE : SysState := fireTimer timer0 sD

/-- The scenario state at time 2100 ms. -/
def sF : SysState := passTime 100 sE

/-- The scenario state right after the third trigger, at time 2100 ms. -/
def sG : SysState := onShow sF

/-- Appending a fresh element strictly above everything in a duplicate-free
list of ids keeps it duplicate-free. -/
theorem nodup_append_fresh {l : List Nat} {n : Nat} (hn : l.Nodup)
    (hlt : ∀ c ∈ l, c < n) : (l ++ [n]).Nodup := by
  rw [List.nodup_append]
  refine ⟨hn, List.nodup_singleton _, ?_⟩
  intro a ha hb
  rw [List.mem_singleton] at hb
  subst hb
  exact absurd (hlt _ ha) (lt_irrefl _)

/-- On a well-formed state, `queue.find` by container identity returns
exactly the queue entry owning that container. -/
theorem find_eq_some_of_mem (s : SysState) (hw : WF s) {i : Item}
    (hi : i ∈ s.queue) :
    s.queue.find? (fun it => it.msgContainer == i.msgContainer) = some i := by
  cases hfind : s.queue.find? (fun it => it.msgContainer == i.msgContainer) with
  | none =>
    have := List.find?_eq_none.mp hfind i hi
    simp at this
  | some x =>
    have hx : x ∈ s.queue := List.mem_of_find?_eq_some hfind
    have hpx : x.msgContainer = i.msgContainer := by
      simpa using List.find?_some hfind
    exact congrArg some (List.inj_on_of_nodup_map hw.queueNodup hx hi hpx)

/-- Field-by-field description of what firing a timer does on a
well-formed state: exactly the queue entry owning the timer's container
is spliced out, its container is detached, its root unmounted, and the
fired timer leaves the pending set; nothing else changes. -/
theorem fireTimer_fields (s : SysState) (hw : WF s) (tm : Timer)
    (hm : tm ∈ s.timers) :
    ∃ i ∈ s.queue, i.msgContainer = tm.container ∧
      (fireTimer tm s).queue = s.queue.erase i ∧
      (fireTimer tm s).body = s.body.erase i.msgContainer ∧
      (fireTimer tm s).mounted = s.mounted.filter (fun p => p.1 != i.root) ∧
      (fireTimer tm s).timers = s.timers.erase tm ∧
      (fireTimer tm s).tops = s.tops ∧
      (fireTimer tm s).createdAt = s.createdAt ∧
      (fireTimer tm s).now = s.now ∧
      (fireTimer tm s).nextId = s.nextId := by
  obtain ⟨i, hi, hic⟩ := hw.timerToQueue tm hm
  have hfind : s.queue.find? (fun it => it.msgContainer == tm.container) = some i := by
    rw [← hic]
    exact find_eq_some_of_mem s hw hi
  refine ⟨i, hi, hic, ?_⟩
  simp [fireTimer, expiryCallback, hfind]

/-- Time passing preserves well-formedness. -/
theorem wf_tick (s : SysState) (hw : WF s) (d : Nat) : WF (passTime d s) :=
  ⟨hw.queueNodup, hw.queueLt, hw.rootEq, hw.inBody, hw.inMounted, hw.bodyNodup,
   hw.bodyLt, hw.timerToQueue, hw.timersNodup, hw.timerLt, hw.timerCreated⟩

/-- Running `window.onShow` preserves well-formedness. -/
theorem wf_onShow (s : SysState) (hw : WF s) : WF (onShow s) := by
  constructor
  · simp only [onShow, List.map_append, List.map_cons, List.map_nil]
    exact nodup_append_fresh hw.queueNodup (by
      intro c hc
      obtain ⟨i, hi, rfl⟩ := List.mem_map.mp hc
      exact hw.queueLt i hi)
  · intro i hi
    simp only [onShow, List.mem_append, List.mem_singleton] at hi
    rcases hi with hi | rfl
    · exact Nat.lt_succ_of_lt (hw.queueLt i hi)
    · exact Nat.lt_succ_self _
  · intro i hi
    simp only [onShow, List.mem_append, List.mem_singleton] at hi
    rcases hi with hi | rfl
    · exact hw.rootEq i hi
    · rfl
  · intro i hi
    simp only [onShow, List.mem_append, List.mem_singleton] at hi ⊢
    rcases hi with hi | rfl
    · exact Or.inl (hw.inBody i hi)
    · exact Or.inr rfl
  · intro i hi
    simp only [onShow, List.mem_append, List.mem_singleton] at hi ⊢
    rcases hi with hi | rfl
    · exact Or.inl (hw.inMounted i hi)
    · exact Or.inr rfl
  · exact nodup_append_fresh hw.bodyNodup hw.bodyLt
  · intro c hc
    simp only [onShow, List.mem_append, List.mem_singleton] at hc
    rcases hc with hc | rfl
    · exact Nat.lt_succ_of_lt (hw.bodyLt c hc)
    · exact Nat.lt_succ_self _
  · intro tm htm
    simp only [onShow, List.mem_append, List.mem_singleton] at htm ⊢
    rcases htm with htm | rfl
    · obtain ⟨i, hi, hic⟩ := hw.timerToQueue tm htm
      exact ⟨i, Or.inl hi, hic⟩
    · exact ⟨_, Or.inr rfl, rfl⟩
  · simp only [onShow, List.map_append, List.map_cons, List.map_nil]
    exact nodup_append_fresh hw.timersNodup (by
      intro c hc
      obtain ⟨tm, htm, rfl⟩ := List.mem_map.mp hc
      exact hw.timerLt tm htm)
  · intro tm htm
    simp only [onShow, List.mem_append, List.mem_singleton] at htm
    rcases htm with htm | rfl
    · exact Nat.lt_succ_of_lt (hw.timerLt tm htm)
    · exact Nat.lt_succ_self _
  · intro tm htm
    simp only [onShow, List.mem_append, List.mem_singleton] at htm ⊢
    rcases htm with htm | rfl
    · obtain ⟨t, ht, hfa⟩ := hw.timerCreated tm htm
      exact ⟨t, Or.inl ht, hfa⟩
    · exact ⟨s.now, Or.inr rfl, rfl⟩

/-- Distinct queue entries of a well-formed state own distinct containers. -/
theorem queue_container_ne (s : SysState) (hw : WF s) {a b : Item}
    (ha : a ∈ s.queue) (hb : b ∈ s.queue) (hne : a ≠ b) :
    a.msgContainer ≠ b.msgContainer := by
  intro h
  exact hne (List.inj_on_of_nodup_map hw.queueNodup ha hb h)

/-- Firing a pending timer preserves well-formedness. -/
theorem wf_fire (s : SysState) (hw : WF s) (tm : Timer) (hm : tm ∈ s.timers) :
    WF (fireTimer tm s) := by
  obtain ⟨i, hiq, hic, hq, hb, hmo, htm, htos, hcr, hnow, hnext⟩ :=
    fireTimer_fields s hw tm hm
  have hqItems : s.queue.Nodup := List.Nodup.of_map _ hw.queueNodup
  have htItems : s.timers.Nodup := List.Nodup.of_map _ hw.timersNodup
  have hmemQ : ∀ {b : Item}, b ∈ (fireTimer tm s).queue ↔ b ≠ i ∧ b ∈ s.queue := by
    intro b
    rw [hq]
    exact hqItems.mem_erase_iff
  constructor
  · rw [hq]
    exact ((List.erase_sublist i s.queue).map Item.msgContainer).nodup hw.queueNodup
  · intro b hbq
    rw [hnext]
    exact hw.queueLt b (hmemQ.mp hbq).2
  · intro b hbq
    exact hw.rootEq b (hmemQ.mp hbq).2
  · intro b hbq
    obtain ⟨hbi, hbmem⟩ := hmemQ.mp hbq
    rw [hb, List.mem_erase_of_ne (queue_container_ne s hw hbmem hiq hbi)]
    exact hw.inBody b hbmem
  · intro b hbq
    obtain ⟨hbi, hbmem⟩ := hmemQ.mp hbq
    rw [hmo, List.mem_filter]
    refine ⟨hw.inMounted b hbmem, ?_⟩
    simp only [bne_iff_ne, ne_eq]
    rw [hw.rootEq b hbmem, hw.rootEq i hiq]
    exact queue_container_ne s hw hbmem hiq hbi
  · rw [hb]
    exact hw.bodyNodup.erase _
  · intro c hc
    rw [hnext]
    exact hw.bodyLt c (List.mem_of_mem_erase (hb ▸ hc))
  · intro tm' htm'
    rw [htm] at htm'
    obtain ⟨htne, htmem⟩ := htItems.mem_erase_iff.mp htm'
    obtain ⟨b, hbmem, hbc⟩ := hw.timerToQueue tm' htmem
    have hcne : tm'.container ≠ tm.container := by
      intro h
      exact htne (List.inj_on_of_nodup_map hw.timersNodup htmem hm h)
    have hbne : b ≠ i := by
      intro h
      exact hcne (by rw [← hbc, h, hic])
    exact ⟨b, hmemQ.mpr ⟨hbne, hbmem⟩, hbc⟩
  · rw [htm]
    exact ((List.erase_sublist tm s.timers).map Timer.container).nodup hw.timersNodup
  · intro tm' htm'
    rw [hnext]
    exact hw.timerLt tm' (List.mem_of_mem_erase (htm ▸ htm'))
  · intro tm' htm'
    rw [hcr]
    exact hw.timerCreated tm' (List.mem_of_mem_erase (htm ▸ htm'))

/-- The initial state is well-formed. -/
theorem wf_init : WF init0 := by
  constructor <;> simp [init0]

/-- Every event-loop step preserves well-formedness. -/
theorem wf_step {s s' : SysState} (hw : WF s) (hst : Step s s') : WF s' := by
  cases hst with
  | tick => exact wf_tick s hw 1
  | trigger => exact wf_onShow s hw
  | fire tm hmem hdue => exact wf_fire s hw tm hmem

/-- Every reachable state is well-formed. -/
theorem reachable_wf {s : SysState} (hr : Reachable s) : WF s := by
  induction hr with
  | init => exact wf_init
  | step hr hst ih => exact wf_step ih hst

/-- Projection: a trigger call leaves the clock alone. -/
theorem onShow_now (s : SysState) : (onShow s).now = s.now := rfl

/-- Projection: a trigger call allocates one fresh container id. -/
theorem onShow_nextId (s : SysState) : (onShow s).nextId = s.nextId + 1 := rfl

/-- Projection: a trigger call pushes exactly one new record. -/
theorem onShow_queue (s : SysState) :
    (onShow s).queue = s.queue ++ [{ msgContainer := s.nextId, root := s.nextId }] := rfl

/-- Projection: a trigger call grows the queue by exactly one. -/
theorem onShow_queue_length (s : SysState) :
    (onShow s).queue.length = s.queue.length + 1 := by
  rw [onShow_queue]
  simp

/-- Projection: a trigger call records one `style.top`, computed from the
pre-push queue length. -/
theorem onShow_tops (s : SysState) :
    (onShow s).tops = s.tops ++ [(s.nextId, s.queue.length * 50)] := rfl

/-- Projection: a trigger call schedules exactly one timer, due 2000 ms
from now, keyed to the fresh container. -/
theorem onShow_timers (s : SysState) :
    (onShow s).timers = s.timers ++ [{ fireAt := s.now + 2000, container := s.nextId }] := rfl

/-- Iterated triggering never moves the clock. -/
theorem onShowIter_now (n : Nat) : ∀ s : SysState, (onShowIter n s).now = s.now := by
  induction n with
  | zero => intro s; rfl
  | succ n ih =>
    intro s
    show (onShowIter n (onShow s)).now = s.now
    rw [ih (onShow s)]
    rfl

/-- Iterated triggering allocates `n` fresh container ids. -/
theorem onShowIter_nextId (n : Nat) : ∀ s : SysState,
    (onShowIter n s).nextId = s.nextId + n := by
  induction n with
  | zero => intro s; rfl
  | succ n ih =>
    intro s
    show (onShowIter n (onShow s)).nextId = s.nextId + (n + 1)
    rw [ih (onShow s)]
    show s.nextId + 1 + n = s.nextId + (n + 1)
    omega

/-- Closed form of the queue after `n` back-to-back trigger calls: the `n`
new records are appended in order, the `k`-th owning container `nextId + k`. -/
theorem onShowIter_queue (n : Nat) : ∀ s : SysState,
    (onShowIter n s).queue = s.queue ++ (List.range n).map
      (fun k => { msgContainer := s.nextId + k, root := s.nextId + k }) := by
  induction n with
  | zero => intro s; simp [onShowIter]
  | succ n ih =>
    intro s
    show (onShowIter n (onShow s)).queue = _
    rw [ih (onShow s)]
    simp only [onShow_queue, onShow_nextId]
    rw [List.range_succ_eq_map, List.map_cons, List.map_map, List.append_assoc,
      List.singleton_append]
    refine congrArg (s.queue ++ ·) ?_
    refine congrArg₂ List.cons (by simp) ?_
    refine List.map_congr_left ?_
    intro k hk
    show Item.mk (s.nextId + 1 + k) (s.nextId + 1 + k) =
      Item.mk (s.nextId + (k + 1)) (s.nextId + (k + 1))
    rw [Item.mk.injEq]
    exact ⟨by ring, by ring⟩

/-- Closed form of the recorded `style.top` values after `n` back-to-back
trigger calls: the `k`-th new container is positioned at
`(queue.length + k) * 50` px. -/
theorem onShowIter_tops (n : Nat) : ∀ s : SysState,
    (onShowIter n s).tops = s.tops ++ (List.range n).map
      (fun k => (s.nextId + k, (s.queue.length + k) * 50)) := by
  induction n with
  | zero => intro s; simp [onShowIter]
  | succ n ih =>
    intro s
    show (onShowIter n (onShow s)).tops = _
    rw [ih (onShow s)]
    simp only [onShow_tops, onShow_nextId, onShow_queue_length]
    rw [List.range_succ_eq_map, List.map_cons, List.map_map, List.append_assoc,
      List.singleton_append]
    refine congrArg (s.tops ++ ·) ?_
    refine congrArg₂ List.cons (by simp) ?_
    refine List.map_congr_left ?_
    intro k hk
    show (s.nextId + 1 + k, (s.queue.length + 1 + k) * 50) =
      (s.nextId + (k + 1), (s.queue.length + (k + 1)) * 50)
    rw [Prod.mk.injEq]
    exact ⟨by ring, by ring⟩

/-- Closed form of the pending timers after `n` back-to-back trigger calls:
one fresh timer per call, each due exactly 2000 ms after the shared call
time, each keyed to its own container. -/
theorem onShowIter_timers (n : Nat) : ∀ s : SysState,
    (onShowIter n s).timers = s.timers ++ (List.range n).map
      (fun k => { fireAt := s.now + 2000, container := s.nextId + k }) := by
  induction n with
  | zero => intro s; simp [onShowIter]
  | succ n ih =>
    intro s
    show (onShowIter n (onShow s)).timers = _
    rw [ih (onShow s)]
    simp only [onShow_timers, onShow_nextId, onShow_now]
    rw [List.range_succ_eq_map, List.map_cons, List.map_map, List.append_assoc,
      List.singleton_append]
    refine congrArg (s.timers ++ ·) ?_
    refine congrArg₂ List.cons (by simp) ?_
    refine List.map_congr_left ?_
    intro k hk
    show Timer.mk (s.now + 2000) (s.nextId + 1 + k) =
      Timer.mk (s.now + 2000) (s.nextId + (k + 1))
    rw [Timer.mk.injEq]
    exact ⟨rfl, by ring⟩

/-- Each trigger call appends exactly one record. -/
theorem onShowIter_length (n : Nat) (s : SysState) :
    (onShowIter n s).queue.length = s.queue.length + n := by
  rw [onShowIter_queue n s]
  simp

/-- The event loop can let any amount of wall-clock time pass. -/
theorem reachable_passTime {s : SysState} (hr : Reachable s) (d : Nat) :
    Reachable (passTime d s) := by
  induction d with
  | zero => exact hr
  | succ d ih => exact Reachable.step ih (Step.tick (passTime d s))

/-- The scenario state after the first trigger is reachable. -/
theorem reachable_sA : Reachable sA :=
  Reachable.step Reachable.init (Step.trigger init0)

/-- The scenario state at 1900 ms is reachable. -/
theorem reachable_sB : Reachable sB := reachable_passTime reachable_sA 1900

/-- The scenario state after the second trigger is reachable. -/
theorem reachable_sC : Reachable sC :=
  Reachable.step reachable_sB (Step.trigger sB)

/-- The scenario state at 2000 ms is reachable. -/
theorem reachable_sD : Reachable sD := reachable_passTime reachable_sC 100

/-- The scenario state after the first expiry is reachable: the timer of
the first toast is pending and due exactly at 2000 ms. -/
theorem reachable_sE : Reachable sE :=
  Reachable.step reachable_sD (Step.fire sD timer0 (by decide) (by decide))

/-- The scenario state at 2100 ms is reachable. -/
theorem reachable_sF : Reachable sF := reachable_passTime reachable_sE 100

/-- The scenario state after the third trigger is reachable. -/
theorem reachable_sG : Reachable sG :=
  Reachable.step reachable_sF (Step.trigger sF)

/-- C1: for all N ≥ 0 calls to `window.onShow` issued back to back from the
fresh module state, exactly N records are in the queue; the i-th inserted
record owns container i and its `style.top` is exactly `i * 50` px, so the
N recorded offsets are pairwise distinct. -/
theorem trigger_burst_distinct_offsets (n : Nat) :
    (onShowIter n init0).queue.length = n ∧
    (onShowIter n init0).queue.map Item.msgContainer = List.range n ∧
    (onShowIter n init0).tops = (List.range n).map (fun i => (i, i * 50)) ∧
    ((onShowIter n init0).tops.map Prod.snd).Nodup := by
  have hq' : (onShowIter n init0).queue =
      (List.range n).map (fun k => { msgContainer := k, root := k }) := by
    rw [onShowIter_queue n init0]
    simp [init0]
  have ht' : (onShowIter n init0).tops =
      (List.range n).map (fun i => (i, i * 50)) := by
    rw [onShowIter_tops n init0]
    simp [init0]
  refine ⟨?_, ?_, ht', ?_⟩
  · rw [hq']
    simp
  · rw [hq', List.map_map]
    have : Item.msgContainer ∘ (fun k => Item.mk k k) = fun k => k := rfl
    rw [this, List.map_id']
  · rw [ht', List.map_map]
    refine List.Nodup.map ?_ (List.nodup_range n)
    intro a b h
    have hab : a * 50 = b * 50 := h
    omega

/-- C2: a record leaves the queue only through the firing of the timer
scheduled for its own container, and that can happen only once the clock
has reached the record's creation time plus 2000 ms — never earlier, and
through no other transition of the event loop. -/
theorem record_removed_only_by_own_timer_after_2000ms
    {s s' : SysState} (hr : Reachable s) (hst : Step s s')
    {item : Item} (hin : item ∈ s.queue) (hout : item ∉ s'.queue) :
    ∃ tm ∈ s.timers, tm.container = item.msgContainer ∧ tm.fireAt ≤ s.now ∧
      s' = fireTimer tm s ∧
      ∃ t, (item.msgContainer, t) ∈ s.createdAt ∧ tm.fireAt = t + 2000 := by
  have hw := reachable_wf hr
  cases hst with
  | tick => exact absurd hin hout
  | trigger =>
    rw [onShow_queue] at hout
    exact absurd (List.mem_append_left _ hin) hout
  | fire tm hmem hdue =>
    obtain ⟨i, hiq, hic, hq, _, _, _, _, _, _, _⟩ := fireTimer_fields s hw tm hmem
    have hqItems : s.queue.Nodup := List.Nodup.of_map _ hw.queueNodup
    have hii : item = i := by
      by_contra hne
      exact hout (hq ▸ hqItems.mem_erase_iff.mpr ⟨hne, hin⟩)
    subst hii
    obtain ⟨t, htc, hta⟩ := hw.timerCreated tm hmem
    exact ⟨tm, hmem, hic.symm, hdue, rfl, t, hic ▸ htc, hta⟩

/-- Witness for C2: in the concrete scenario, the first toast (created at
time 0) is removed by the firing of its own timer at time 2000 ms. -/
theorem record_removed_only_by_own_timer_after_2000ms_witness :
    ∃ tm ∈ sD.timers, tm.container = (Item.mk 0 0).msgContainer ∧
      tm.fireAt ≤ sD.now ∧ fireTimer timer0 sD = fireTimer tm sD ∧
      ∃ t, ((Item.mk 0 0).msgContainer, t) ∈ sD.createdAt ∧ tm.fireAt = t + 2000 :=
  record_removed_only_by_own_timer_after_2000ms reachable_sD
    (Step.fire sD timer0 (by decide) (by decide)) (by decide) (by decide)

/-- C3: firing the timer of record A leaves every other record B of the
queue untouched: B is still in the queue as the very same record, its
container is still attached to `document.body`, and its root is still
mounted with the rendered message. -/
theorem expiry_isolates_other_records {s : SysState} (hr : Reachable s)
    {tm : Timer} (hm : tm ∈ s.timers) {b : Item} (hb : b ∈ s.queue)
    (hne : b.msgContainer ≠ tm.container) :
    b ∈ (fireTimer tm s).queue ∧
    b.msgContainer ∈ (fireTimer tm s).body ∧
    (b.root, Message ()) ∈ (fireTimer tm s).mounted := by
  have hw := reachable_wf hr
  obtain ⟨i, hiq, hic, hq, hbody, hmo, _, _, _, _, _⟩ := fireTimer_fields s hw tm hm
  have hqItems : s.queue.Nodup := List.Nodup.of_map _ hw.queueNodup
  have hci : b.msgContainer ≠ i.msgContainer := fun h => hne (h.trans hic)
  have hbi : b ≠ i := fun h => hci (congrArg Item.msgContainer h)
  refine ⟨hq ▸ hqItems.mem_erase_iff.mpr ⟨hbi, hb⟩, ?_, ?_⟩
  · rw [hbody, List.mem_erase_of_ne hci]
    exact hw.inBody b hb
  · rw [hmo, List.mem_filter]
    refine ⟨hw.inMounted b hb, ?_⟩
    show (b.root != i.root) = true
    rw [bne_iff_ne, hw.rootEq b hb, hw.rootEq i hiq]
    exact hci

/-- Witness for C3: in the concrete scenario, the expiry of the first
toast leaves the second record mounted, attached and in the queue. -/
theorem expiry_isolates_other_records_witness :
    Item.mk 1 1 ∈ (fireTimer timer0 sD).queue ∧
    (Item.mk 1 1).msgContainer ∈ (fireTimer timer0 sD).body ∧
    ((Item.mk 1 1).root, Message ()) ∈ (fireTimer timer0 sD).mounted :=
  expiry_isolates_other_records reachable_sD (by decide) (by decide) (by decide)

/-- C4: in every reachable state, every record of the queue has its
container attached to `document.body` and its root mounted with the
rendered message; and when a record expires, it leaves the queue and both
its container and its root are released, so the queue never holds a
dangling handle. -/
theorem queue_no_dangling_handles {s : SysState} (hr : Reachable s) :
    (∀ i ∈ s.queue, i.msgContainer ∈ s.body ∧ (i.root, Message ()) ∈ s.mounted) ∧
    (∀ tm ∈ s.timers, ∀ i ∈ s.queue, i.msgContainer = tm.container →
      i ∉ (fireTimer tm s).queue ∧ i.msgContainer ∉ (fireTimer tm s).body ∧
      ∀ v, (i.root, v) ∉ (fireTimer tm s).mounted) := by
  have hw := reachable_wf hr
  refine ⟨fun i hi => ⟨hw.inBody i hi, hw.inMounted i hi⟩, ?_⟩
  intro tm hm i hi hcon
  obtain ⟨i0, hi0q, hi0c, hq, hbody, hmo, _, _, _, _, _⟩ := fireTimer_fields s hw tm hm
  have hqItems : s.queue.Nodup := List.Nodup.of_map _ hw.queueNodup
  have hi0 : i = i0 :=
    List.inj_on_of_nodup_map hw.queueNodup hi hi0q (hcon.trans hi0c.symm)
  subst hi0
  refine ⟨hq ▸ hqItems.not_mem_erase, hbody ▸ hw.bodyNodup.not_mem_erase, ?_⟩
  intro v hv
  rw [hmo, List.mem_filter] at hv
  have : (i.root != i.root) = true := hv.2
  rw [bne_iff_ne] at this
  exact this rfl

/-- Witness for C4: the guarantees instantiated at the concrete scenario
state at 2000 ms. -/
theorem queue_no_dangling_handles_witness :
    (∀ i ∈ sD.queue, i.msgContainer ∈ sD.body ∧ (i.root, Message ()) ∈ sD.mounted) ∧
    (∀ tm ∈ sD.timers, ∀ i ∈ sD.queue, i.msgContainer = tm.container →
      i ∉ (fireTimer tm sD).queue ∧ i.msgContainer ∉ (fireTimer tm sD).body ∧
      ∀ v, (i.root, v) ∉ (fireTimer tm sD).mounted) :=
  queue_no_dangling_handles reachable_sD

/-- C5: the `style.top` recorded for a surviving record is bit-for-bit the
same before and after any other record's expiry — the expiry callback
never rewrites any `style.top`. -/
theorem surviving_offsets_never_shift (s : SysState) (tm : Timer) (b : Item)
    (hb : b ∈ s.queue) (hb' : b ∈ (fireTimer tm s).queue) :
    (fireTimer tm s).tops.lookup b.msgContainer = s.tops.lookup b.msgContainer := by
  have htops : (fireTimer tm s).tops = s.tops := by
    simp only [fireTimer, expiryCallback]
    split <;> rfl
  rw [htops]

/-- Witness for C5: in the concrete scenario, the second toast keeps its
50 px offset across the first toast's expiry. -/
theorem surviving_offsets_never_shift_witness :
    (fireTimer timer0 sD).tops.lookup (Item.mk 1 1).msgContainer =
      sD.tops.lookup (Item.mk 1 1).msgContainer :=
  surviving_offsets_never_shift sD timer0 (Item.mk 1 1) (by decide) (by decide)

/-- C6: each call to the global `window.onShow` appends exactly one record
and schedules exactly one fresh 2000 ms timer keyed to the new toast's own
container; N back-to-back calls yield N records and N independent timers
with pairwise distinct containers. -/
theorem trigger_one_toast_own_timer (s : SysState) (n : Nat) :
    (onShow s).queue.length = s.queue.length + 1 ∧
    (onShow s).timers = s.timers ++ [{ fireAt := s.now + 2000, container := s.nextId }] ∧
    (onShowIter n s).queue.length = s.queue.length + n ∧
    (onShowIter n s).timers = s.timers ++ (List.range n).map
      (fun k => { fireAt := s.now + 2000, container := s.nextId + k }) ∧
    ((List.range n).map (fun k => s.nextId + k)).Nodup := by
  refine ⟨onShow_queue_length s, onShow_timers s, onShowIter_length n s,
    onShowIter_timers n s, ?_⟩
  refine List.Nodup.map ?_ (List.nodup_range n)
  intro a b h
  have h' : s.nextId + a = s.nextId + b := h
  omega

/-- C7: no backpressure and no bound: from any state whatsoever, N trigger
calls with no intervening expiry grow the queue by exactly N — `onShow`
never refuses, coalesces or drops a toast, whatever the queue length. -/
theorem no_backpressure_unbounded_queue (s : SysState) (n : Nat) :
    (onShowIter n s).queue.length = s.queue.length + n ∧
    (onShowIter n init0).queue.length = n := by
  refine ⟨onShowIter_length n s, ?_⟩
  rw [onShowIter_length n init0]
  simp [init0]

/-- C8: the `Message` component takes no input beyond its unit argument,
holds no state, and returns the same fixed payload `<div>提示组件</div>`
on every invocation. -/
theorem message_renderer_fixed_payload :
    (∀ u : Unit, Message u = VNode.div "提示组件") ∧
    ∀ u v : Unit, Message u = Message v :=
  ⟨fun _ => rfl, fun _ _ => rfl⟩

/-- C9: whenever a pending timer fires in a reachable state, the
`queue.find` lookup by container identity succeeds — the non-null
assertion after it cannot throw — and the expiry removes exactly one
record, decreasing the queue length by exactly one. -/
theorem expiry_lookup_succeeds {s : SysState} (hr : Reachable s)
    {tm : Timer} (hm : tm ∈ s.timers) :
    (s.queue.find? (fun it => it.msgContainer == tm.container)).isSome = true ∧
    (fireTimer tm s).queue.length + 1 = s.queue.length := by
  have hw := reachable_wf hr
  obtain ⟨i, hiq, hic, hq, _, _, _, _, _, _, _⟩ := fireTimer_fields s hw tm hm
  have hfind : s.queue.find? (fun it => it.msgContainer == tm.container) = some i := by
    rw [← hic]
    exact find_eq_some_of_mem s hw hiq
  constructor
  · rw [hfind]
    rfl
  · rw [hq, List.length_erase_of_mem hiq]
    have := List.length_pos_of_mem hiq
    omega

/-- Witness for C9: the lookup succeeds and the queue shrinks by one when
the first timer of the concrete scenario fires. -/
theorem expiry_lookup_succeeds_witness :
    (sD.queue.find? (fun it => it.msgContainer == timer0.container)).isSome = true ∧
    (fireTimer timer0 sD).queue.length + 1 = sD.queue.length :=
  expiry_lookup_succeeds reachable_sD (by decide)

/-- C10: because the offset is computed from the current queue length and
not from a monotone counter, interleaving triggers with an expiry produces
two simultaneously queued records with equal offsets: trigger at 0 ms and
at 1900 ms, let the first expire at 2000 ms, trigger again at 2100 ms —
the two remaining records (containers 1 and 2) both sit at 50 px. -/
theorem interleaved_triggers_collide_offsets :
    Reachable sG ∧
    Item.mk 1 1 ∈ sG.queue ∧ Item.mk 2 2 ∈ sG.queue ∧
    (Item.mk 1 1).msgContainer ≠ (Item.mk 2 2).msgContainer ∧
    sG.tops.lookup (Item.mk 1 1).msgContainer = some 50 ∧
    sG.tops.lookup (Item.mk 2 2).msgContainer = some 50 :=
  ⟨reachable_sG, by decide, by decide, by decide, by decide, by decide⟩

